import Mathlib

/-!
Verification of the task-manager analytics feature.

The development shallowly embeds the two aggregation strategies of the
analytics feature — the SQL RPC `get_task_analytics`
(supabase/migrations/002_create_analytics_rpc.sql) and the in-memory
fallback path of the edge function
(supabase/functions/task-analytics/index.ts) — together with the edge
function's request-handling shell and its in-memory sliding-window rate
limiter.  Timestamps are modelled as integers (milliseconds), JavaScript
and SQL numeric values as exact rationals, and calendar dates as explicit
year/month/day triples reproducing JavaScript `Date` month arithmetic.
-/

namespace TaskManager

/-- Task status: the closed enumeration `pending`, `in-progress`, `done`
from the `tasks` table schema. -/
inductive Status
  | pending
  | inProgress
  | done
deriving DecidableEq

/-- Task priority: the closed enumeration `low`, `medium`, `high` from the
application's `Task` type (`extras.priority`). -/
inductive Priority
  | low
  | medium
  | high
deriving DecidableEq

/-- A task record, as the analytics feature reads it: `extras.priority`
and `extras.due_date` are optional, `extras.tags` defaults to the empty
list.  `insertedAt` is the creation instant (milliseconds) used for
recency ordering; `insertedYm` is the calendar month of creation as a
linear month index (year * 12 + month), the counterpart of slicing the
ISO `inserted_at` string to `YYYY-MM`. -/
structure Task where
  id : String
  title : String
  status : Status
  priority : Option Priority
  dueDate : Option Int
  tags : List String
  insertedAt : Int
  insertedYm : Int
deriving DecidableEq

/-- The scalar part of the analytics report (the seven scalar fields of
`TaskAnalytics` that claim C1 compares across the two strategies). -/
structure ScalarStats where
  totalTasks : Nat
  completedTasks : Nat
  pendingTasks : Nat
  inProgressTasks : Nat
  overdueTasks : Nat
  completionRate : ℚ
  productivityScore : Int
deriving DecidableEq

/-- JavaScript `Math.round`: floor of the argument plus one half (rounds
half toward positive infinity). -/
def jsRound (q : ℚ) : Int := ⌊q + 1/2⌋

/-- PostgreSQL `ROUND` on `NUMERIC`: rounds half away from zero. -/
def pgRound (q : ℚ) : Int := if 0 ≤ q then ⌊q + 1/2⌋ else -⌊-q + 1/2⌋

/-- Whether a task has a due date that lies strictly before `now`.  This is
the due-date part of the overdue filters: the SQL
`(extras->>'due_date')::timestamp < p_now` and the fallback query
`.lt("extras->due_date", now)`; a task without a due date never passes. -/
def hasPastDue (t : Task) (now : Int) : Bool :=
  match t.dueDate with
  | some d => decide (d < now)
  | none => false

/-- The completion rate of the fallback path (index.ts line 172):
`totalTasks > 0 ? (completedTasks / totalTasks) * 100 : 0`. -/
def completionRateJS (total completed : Nat) : ℚ :=
  if 0 < total then ((completed : ℚ) / (total : ℚ)) * 100 else 0

/-- The productivity score of the fallback path (index.ts lines 182-190):
a weighted sum of four components accumulated only when `totalTasks > 0`,
then passed through `Math.round`. -/
def productivityScoreJS (total completed overdue inProgress : Nat) : Int :=
  let score : ℚ :=
    if 0 < total then
      completionRateJS total completed * 0.4
        + max 0 (100 - ((overdue : ℚ) / (total : ℚ)) * 100) * 0.3
        + min 100 ((total : ℚ) * 10) * 0.2
        + min 100 ((inProgress : ℚ) * 25) * 0.1
    else 0
  jsRound score

/-- Scalar analytics of the fallback path (index.ts lines 153-190): five
per-status count queries over all of the owner's tasks, the completion
rate, and the productivity score. -/
def fallbackScalars (tasks : List Task) (now : Int) : ScalarStats :=
  let totalTasks := tasks.length
  let completedTasks := tasks.countP (fun t => t.status == .done)
  let pendingTasks := tasks.countP (fun t => t.status == .pending)
  let inProgressTasks := tasks.countP (fun t => t.status == .inProgress)
  let overdueTasks := tasks.countP (fun t => t.status != .done && hasPastDue t now)
  { totalTasks := totalTasks
    completedTasks := completedTasks
    pendingTasks := pendingTasks
    inProgressTasks := inProgressTasks
    overdueTasks := overdueTasks
    completionRate := completionRateJS totalTasks completedTasks
    productivityScore := productivityScoreJS totalTasks completedTasks overdueTasks inProgressTasks }

/-- Scalar analytics of the SQL RPC `get_task_analytics`
(002_create_analytics_rpc.sql lines 26-53): filtered counts over the
owner's rows, `completion_rate` set only when `total_tasks > 0`, and
`productivity_score` as `ROUND(CASE WHEN total_tasks = 0 THEN 0 ELSE
weighted sum END)` with `GREATEST`/`LEAST` for the caps. -/
def rpcScalars (tasks : List Task) (now : Int) : ScalarStats :=
  let total_tasks := tasks.countP (fun _ => true)
  let completed_tasks := tasks.countP (fun t => t.status == .done)
  let pending_tasks := tasks.countP (fun t => t.status == .pending)
  let in_progress_tasks := tasks.countP (fun t => t.status == .inProgress)
  let overdue_tasks := tasks.countP (fun t => t.status != .done && hasPastDue t now)
  let completion_rate : ℚ :=
    if 0 < total_tasks then ((completed_tasks : ℚ) / (total_tasks : ℚ)) * 100 else 0
  let productivity_score : Int :=
    pgRound
      (if total_tasks = 0 then 0
       else
         completion_rate * 0.4
           + max 0 (100 - ((overdue_tasks : ℚ) / (total_tasks : ℚ) * 100)) * 0.3
           + min 100 ((total_tasks : ℚ) * 10) * 0.2
           + min 100 ((in_progress_tasks : ℚ) * 25) * 0.1)
  { totalTasks := total_tasks
    completedTasks := completed_tasks
    pendingTasks := pending_tasks
    inProgressTasks := in_progress_tasks
    overdueTasks := overdue_tasks
    completionRate := completion_rate
    productivityScore := productivity_score }

lemma pgRound_eq_jsRound (q : ℚ) (h : 0 ≤ q) : pgRound q = jsRound q := by
  simp [pgRound, jsRound, h]

lemma completionRateJS_nonneg (total completed : Nat) : 0 ≤ completionRateJS total completed := by
  unfold completionRateJS
  split <;> positivity

lemma completionRateJS_le (total completed : Nat) (h : completed ≤ total) :
    completionRateJS total completed ≤ 100 := by
  unfold completionRateJS
  split
  case isTrue ht =>
    have ht' : (0 : ℚ) < total := by exact_mod_cast ht
    have hc : (completed : ℚ) ≤ total := by exact_mod_cast h
    rw [div_mul_eq_mul_div, div_le_iff₀ ht']
    nlinarith
  case isFalse ht => norm_num

/-- The weighted four-component sum feeding the productivity score is
nonnegative. -/
lemma score_sum_nonneg (total completed overdue inProgress : Nat) :
    0 ≤ completionRateJS total completed * 0.4
      + max 0 (100 - ((overdue : ℚ) / (total : ℚ)) * 100) * 0.3
      + min 100 ((total : ℚ) * 10) * 0.2
      + min 100 ((inProgress : ℚ) * 25) * 0.1 := by
  have h1 : (0 : ℚ) ≤ completionRateJS total completed := completionRateJS_nonneg _ _
  have h2 : (0 : ℚ) ≤ max 0 (100 - ((overdue : ℚ) / (total : ℚ)) * 100) := le_max_left _ _
  have h3 : (0 : ℚ) ≤ min 100 ((total : ℚ) * 10) := le_min (by norm_num) (by positivity)
  have h4 : (0 : ℚ) ≤ min 100 ((inProgress : ℚ) * 25) := le_min (by norm_num) (by positivity)
  have g1 : (0 : ℚ) ≤ completionRateJS total completed * 0.4 :=
    mul_nonneg h1 (by norm_num)
  have g2 : (0 : ℚ) ≤ max 0 (100 - ((overdue : ℚ) / (total : ℚ)) * 100) * 0.3 :=
    mul_nonneg h2 (by norm_num)
  have g3 : (0 : ℚ) ≤ min 100 ((total : ℚ) * 10) * 0.2 := mul_nonneg h3 (by norm_num)
  have g4 : (0 : ℚ) ≤ min 100 ((inProgress : ℚ) * 25) * 0.1 := mul_nonneg h4 (by norm_num)
  linarith

/-- The weighted four-component sum feeding the productivity score is at
most 100 whenever `completed ≤ total`. -/
lemma score_sum_le (total completed overdue inProgress : Nat) (h : completed ≤ total) :
    completionRateJS total completed * 0.4
      + max 0 (100 - ((overdue : ℚ) / (total : ℚ)) * 100) * 0.3
      + min 100 ((total : ℚ) * 10) * 0.2
      + min 100 ((inProgress : ℚ) * 25) * 0.1 ≤ 100 := by
  have h1 : completionRateJS total completed ≤ 100 := completionRateJS_le _ _ h
  have h2 : max 0 (100 - ((overdue : ℚ) / (total : ℚ)) * 100) ≤ 100 := by
    have hx : (0 : ℚ) ≤ ((overdue : ℚ) / (total : ℚ)) * 100 := by positivity
    exact max_le (by norm_num) (by linarith)
  have h3 : min 100 ((total : ℚ) * 10) ≤ 100 := min_le_left _ _
  have h4 : min 100 ((inProgress : ℚ) * 25) ≤ 100 := min_le_left _ _
  have g1 : completionRateJS total completed * 0.4 ≤ 40 := by nlinarith [completionRateJS_nonneg total completed]
  have g2 : max 0 (100 - ((overdue : ℚ) / (total : ℚ)) * 100) * 0.3 ≤ 30 := by
    nlinarith [le_max_left (0 : ℚ) (100 - ((overdue : ℚ) / (total : ℚ)) * 100)]
  have g3 : min 100 ((total : ℚ) * 10) * 0.2 ≤ 20 := by
    nlinarith [le_min (show (0:ℚ) ≤ 100 by norm_num) (show (0:ℚ) ≤ (total : ℚ) * 10 by positivity)]
  have g4 : min 100 ((inProgress : ℚ) * 25) * 0.1 ≤ 10 := by
    nlinarith [le_min (show (0:ℚ) ≤ 100 by norm_num) (show (0:ℚ) ≤ (inProgress : ℚ) * 25 by positivity)]
  linarith

lemma productivityScoreJS_nonneg (total completed overdue inProgress : Nat) :
    0 ≤ productivityScoreJS total completed overdue inProgress := by
  unfold productivityScoreJS
  have hq : (0 : ℚ) ≤
      (if 0 < total then
        completionRateJS total completed * 0.4
          + max 0 (100 - ((overdue : ℚ) / (total : ℚ)) * 100) * 0.3
          + min 100 ((total : ℚ) * 10) * 0.2
          + min 100 ((inProgress : ℚ) * 25) * 0.1
      else 0) := by
    split
    · exact score_sum_nonneg total completed overdue inProgress
    · exact le_refl 0
  exact Int.le_floor.mpr (by push_cast; linarith)

lemma productivityScoreJS_le (total completed overdue inProgress : Nat)
    (h : completed ≤ total) :
    productivityScoreJS total completed overdue inProgress ≤ 100 := by
  unfold productivityScoreJS
  have hq :
      (if 0 < total then
        completionRateJS total completed * 0.4
          + max 0 (100 - ((overdue : ℚ) / (total : ℚ)) * 100) * 0.3
          + min 100 ((total : ℚ) * 10) * 0.2
          + min 100 ((inProgress : ℚ) * 25) * 0.1
      else 0) ≤ (100 : ℚ) := by
    split
    · exact score_sum_le total completed overdue inProgress h
    · norm_num
  show jsRound _ ≤ 100
  unfold jsRound
  have h2 := Int.floor_le_floor (add_le_add_right hq (1/2))
  have h3 : ⌊(100 : ℚ) + 1/2⌋ = 100 := by norm_num
  omega

/-- C1: for every task set of one owner and every reference instant `now`,
the bulk strategy (SQL RPC `get_task_analytics`) and the fallback strategy
(the edge function's in-memory path) produce equal values for the scalar
fields totalTasks, completedTasks, pendingTasks, inProgressTasks,
overdueTasks, completionRate and productivityScore, both computed from the
owner's full task data. -/
theorem c1_bulk_fallback_scalar_equiv (tasks : List Task) (now : Int) :
    rpcScalars tasks now = fallbackScalars tasks now := by
  have hlen : tasks.countP (fun _ => true) = tasks.length := by
    simp [List.countP_true]
  rcases Nat.eq_zero_or_pos tasks.length with h0 | hpos
  · have he : tasks = [] := List.length_eq_zero.mp h0
    subst he
    simp [rpcScalars, fallbackScalars, productivityScoreJS, completionRateJS, pgRound, jsRound]
  · have hne : tasks.length ≠ 0 := hpos.ne'
    unfold rpcScalars fallbackScalars
    simp only [hlen, ScalarStats.mk.injEq, hne, if_false, hpos, if_true,
      productivityScoreJS, completionRateJS]
    refine ⟨trivial, trivial, trivial, trivial, trivial, trivial, ?_⟩
    rw [pgRound_eq_jsRound]
    have h := score_sum_nonneg tasks.length (tasks.countP (fun t => t.status == .done))
      (tasks.countP (fun t => t.status != .done && hasPastDue t now))
      (tasks.countP (fun t => t.status == .inProgress))
    simp only [completionRateJS, hpos, if_true] at h
    exact h

/-- C2: for every task set and instant `now`, with the counts computed by
the fallback path: when total = 0 both completionRate and
productivityScore are 0; when total > 0 completionRate is
(completed/total)*100 and productivityScore is the rounded weighted blend
of the four components, an integer in [0, 100]; and for 10 tasks with 4
done, 2 overdue and 2 in-progress the score is 65. -/
theorem c2_productivity_score_formula (tasks : List Task) (now : Int) :
    (fallbackScalars tasks now).completionRate
      = (if 0 < (fallbackScalars tasks now).totalTasks then
          ((fallbackScalars tasks now).completedTasks : ℚ)
            / ((fallbackScalars tasks now).totalTasks : ℚ) * 100
        else 0)
    ∧ (fallbackScalars tasks now).productivityScore
      = jsRound (if 0 < (fallbackScalars tasks now).totalTasks then
          (fallbackScalars tasks now).completionRate * 0.4
            + max 0 (100 - ((fallbackScalars tasks now).overdueTasks : ℚ)
                / ((fallbackScalars tasks now).totalTasks : ℚ) * 100) * 0.3
            + min 100 (((fallbackScalars tasks now).totalTasks : ℚ) * 10) * 0.2
            + min 100 (((fallbackScalars tasks now).inProgressTasks : ℚ) * 25) * 0.1
        else 0)
    ∧ 0 ≤ (fallbackScalars tasks now).productivityScore
    ∧ (fallbackScalars tasks now).productivityScore ≤ 100
    ∧ productivityScoreJS 10 4 2 2 = 65 := by
  refine ⟨?_, ?_, ?_, ?_, ?_⟩
  · simp [fallbackScalars, completionRateJS]
  · simp [fallbackScalars, productivityScoreJS, completionRateJS]
  · simpa [fallbackScalars] using
      productivityScoreJS_nonneg tasks.length (tasks.countP (fun t => t.status == .done))
        (tasks.countP (fun t => t.status != .done && hasPastDue t now))
        (tasks.countP (fun t => t.status == .inProgress))
  · simpa [fallbackScalars] using
      productivityScoreJS_le tasks.length (tasks.countP (fun t => t.status == .done))
        (tasks.countP (fun t => t.status != .done && hasPastDue t now))
        (tasks.countP (fun t => t.status == .inProgress))
        (List.countP_le_length _)
  · norm_num [productivityScoreJS, completionRateJS, jsRound]

/-! ### The in-memory sliding-window rate limiter (index.ts lines 38-76) -/

/-- The rate-limit store: the JS `Map<string, number[]>` as an association
list in insertion order with unique keys. -/
abbrev RLStore := List (String × List Int)

/-- Map lookup with the JS default `rateLimitStore.get(userId) || []`. -/
def storeGet : RLStore → String → List Int
  | [], _ => []
  | p :: s, id => if p.1 = id then p.2 else storeGet s id

/-- Map update `rateLimitStore.set(userId, v)`: replace in place, or
append a fresh key. -/
def storeSet : RLStore → String → List Int → RLStore
  | [], id, v => [(id, v)]
  | p :: s, id, v => if p.1 = id then (id, v) :: s else p :: storeSet s id v

/-- The periodic cleanup body (index.ts lines 64-72): for every identity
keep only timestamps newer than `now - 2 * windowMs`, deleting identities
left with no timestamps. -/
def cleanupBody (s : RLStore) (now : Int) : RLStore :=
  (s.map (fun p => (p.1, p.2.filter (fun time => decide (now - 120000 < time))))).filter
    (fun p => !p.2.isEmpty)

/-- The cleanup guard (index.ts line 63): the sweep runs only when the
store holds more than 10000 identities. -/
def rlCleanup (s : RLStore) (now : Int) : RLStore :=
  if 10000 < s.length then cleanupBody s now else s

/-- The function `rateLimitCheck` (index.ts lines 47-76) with the store
passed explicitly: a window of 60000 ms and a limit of 5 requests.  The
stored timestamps are filtered to those with `time > now - windowMs`; when
5 or more remain the call is rejected and the store is left untouched,
otherwise `now` is recorded and the guarded cleanup runs. -/
def rateLimitCheck (store : RLStore) (userId : String) (now : Int) : Bool × RLStore :=
  let userRequests := storeGet store userId
  let recentRequests := userRequests.filter (fun time => decide (now - 60000 < time))
  if 5 ≤ recentRequests.length then
    (false, store)
  else
    (true, rlCleanup (storeSet store userId (recentRequests ++ [now])) now)

/-- Run a sequence of `(identity, time)` calls through the rate limiter,
threading the store and accumulating the log of admitted calls. -/
def rlRun (store : RLStore) (adm : List (String × Int)) :
    List (String × Int) → RLStore × List (String × Int)
  | [] => (store, adm)
  | c :: cs =>
    let r := rateLimitCheck store c.1 c.2
    rlRun r.2 (if r.1 then adm ++ [c] else adm) cs

/-- Timestamps of the admitted calls of one identity, in call order. -/
def admittedTimes (adm : List (String × Int)) (id : String) : List Int :=
  (adm.filter (fun c => c.1 == id)).map (fun c => c.2)

lemma storeGet_set_self (s : RLStore) (id : String) (v : List Int) :
    storeGet (storeSet s id v) id = v := by
  induction s with
  | nil => simp [storeSet, storeGet]
  | cons p s ih =>
    by_cases h : p.1 = id
    · simp [storeSet, storeGet, h]
    · simp [storeSet, storeGet, h, ih]

lemma storeGet_set_ne (s : RLStore) (id id2 : String) (v : List Int) (h : id2 ≠ id) :
    storeGet (storeSet s id v) id2 = storeGet s id2 := by
  have h2 : id ≠ id2 := Ne.symm h
  induction s with
  | nil => simp [storeSet, storeGet, h2]
  | cons p s ih =>
    by_cases hp : p.1 = id
    · have hne : p.1 ≠ id2 := by rw [hp]; exact h2
      simp [storeSet, storeGet, hp, hne, h2]
    · simp [storeSet, storeGet, hp, ih]

lemma storeGet_eq_nil_of_not_mem (s : RLStore) (id : String)
    (h : id ∉ s.map Prod.fst) : storeGet s id = [] := by
  induction s with
  | nil => simp [storeGet]
  | cons p s ih =>
    simp only [List.map_cons, List.mem_cons] at h
    push_neg at h
    have hp : p.1 ≠ id := Ne.symm h.1
    simp [storeGet, hp, ih h.2]

lemma keys_storeSet (s : RLStore) (id : String) (v : List Int) (k : String) :
    k ∈ (storeSet s id v).map Prod.fst ↔ k ∈ s.map Prod.fst ∨ k = id := by
  induction s with
  | nil => simp [storeSet]
  | cons p s ih =>
    by_cases h : p.1 = id
    · subst h
      simp [storeSet]
      tauto
    · simp [storeSet, h, ih]
      tauto

lemma nodup_keys_storeSet (s : RLStore) (id : String) (v : List Int)
    (h : (s.map Prod.fst).Nodup) : ((storeSet s id v).map Prod.fst).Nodup := by
  induction s with
  | nil => simp [storeSet]
  | cons p s ih =>
    simp only [List.map_cons, List.nodup_cons] at h
    by_cases hp : p.1 = id
    · subst hp
      simpa [storeSet] using h
    · simp only [storeSet, hp, if_false, List.map_cons, List.nodup_cons]
      refine ⟨?_, ih h.2⟩
      rw [keys_storeSet]
      push_neg
      exact ⟨h.1, hp⟩

lemma keys_cleanupBody_sublist (s : RLStore) (now : Int) :
    ((cleanupBody s now).map Prod.fst).Sublist (s.map Prod.fst) := by
  unfold cleanupBody
  have h1 : (cleanupBody s now).Sublist
      (s.map (fun p => (p.1, p.2.filter (fun time => decide (now - 120000 < time))))) :=
    List.filter_sublist _
  have h2 := h1.map Prod.fst
  simp only [cleanupBody] at h2
  simpa [List.map_map, Function.comp] using h2

lemma storeGet_cleanupBody (s : RLStore) (now : Int) (hnd : (s.map Prod.fst).Nodup)
    (id : String) :
    storeGet (cleanupBody s now) id
      = (storeGet s id).filter (fun time => decide (now - 120000 < time)) := by
  induction s with
  | nil => simp [cleanupBody, storeGet]
  | cons p s ih =>
    simp only [List.map_cons, List.nodup_cons] at hnd
    by_cases hp : p.1 = id
    · by_cases he : (p.2.filter (fun time => decide (now - 120000 < time))).isEmpty
      · have hid : id ∉ (s.map Prod.fst) := hp ▸ hnd.1
        have hid2 : id ∉ ((cleanupBody s now).map Prod.fst) :=
          fun hmem => hid ((keys_cleanupBody_sublist s now).subset hmem)
        have hnil : (p.2.filter (fun time => decide (now - 120000 < time))) = [] := by
          simpa [List.isEmpty_iff] using he
        have hrest : storeGet (cleanupBody s now) id = [] :=
          storeGet_eq_nil_of_not_mem _ _ hid2
        simp only [cleanupBody] at hrest
        simp [cleanupBody, storeGet, hp, he, hnil, List.filter_cons, hrest]
      · simp [cleanupBody, storeGet, hp, he, List.filter_cons]
    · by_cases he : (p.2.filter (fun time => decide (now - 120000 < time))).isEmpty <;>
        simpa [cleanupBody, storeGet, hp, he, List.filter_cons] using ih hnd.2

lemma nodup_keys_rlCleanup (s : RLStore) (now : Int) (h : (s.map Prod.fst).Nodup) :
    ((rlCleanup s now).map Prod.fst).Nodup := by
  unfold rlCleanup
  split
  · exact h.sublist (keys_cleanupBody_sublist s now)
  · exact h

/-- Composing two strict-lower-bound filters keeps exactly the elements
above the larger cutoff. -/
lemma filter_lt_filter_lt (l : List Int) (c d : Int) :
    (l.filter (fun t => decide (c < t))).filter (fun t => decide (d < t))
      = l.filter (fun t => decide (max c d < t)) := by
  induction l with
  | nil => simp
  | cons x xs ih =>
    by_cases h1 : c < x <;> by_cases h2 : d < x <;>
      simp [List.filter_cons, h1, h2, ih, max_lt_iff]

lemma admittedTimes_nil (id : String) : admittedTimes [] id = [] := by
  simp [admittedTimes]

lemma admittedTimes_append_self (adm : List (String × Int)) (id : String) (now : Int) :
    admittedTimes (adm ++ [(id, now)]) id = admittedTimes adm id ++ [now] := by
  simp [admittedTimes]

lemma admittedTimes_append_ne (adm : List (String × Int)) (id id2 : String) (now : Int)
    (h : id2 ≠ id) :
    admittedTimes (adm ++ [(id, now)]) id2 = admittedTimes adm id2 := by
  have : (id == id2) = false := by
    simp [Ne.symm h]
  simp [admittedTimes, this]

/-- Invariant tying the rate-limit store to the log of admitted calls at a
watermark time `T`: keys are unique, every admitted timestamp is at most
`T`, and each identity's stored list is exactly its admitted timestamps
above some cutoff that is at least one window old. -/
structure RLInv (store : RLStore) (adm : List (String × Int)) (T : Int) : Prop where
  nodup : (store.map Prod.fst).Nodup
  adm_le : ∀ id : String, ∀ t ∈ admittedTimes adm id, t ≤ T
  stored : ∀ id : String, ∃ c : Int, c ≤ T - 60000 ∧
    storeGet store id = (admittedTimes adm id).filter (fun time => decide (c < time))

lemma RLInv.mono {store : RLStore} {adm : List (String × Int)} {T T2 : Int}
    (hT : T ≤ T2) (h : RLInv store adm T) : RLInv store adm T2 := by
  refine ⟨h.nodup, fun id t ht => (h.adm_le id t ht).trans hT, fun id => ?_⟩
  obtain ⟨c, hc, hget⟩ := h.stored id
  exact ⟨c, by omega, hget⟩

lemma RLInv.empty (T : Int) : RLInv [] [] T := by
  refine ⟨by simp, by simp [admittedTimes], fun id => ⟨T - 60000, le_refl _, by simp [storeGet, admittedTimes]⟩⟩

/-- Under the invariant, filtering the stored list to the current window
gives exactly the admitted timestamps in the current window. -/
lemma recent_eq (store : RLStore) (adm : List (String × Int)) (T : Int)
    (id : String) (now : Int) (hT : T ≤ now) (h : RLInv store adm T) :
    (storeGet store id).filter (fun time => decide (now - 60000 < time))
      = (admittedTimes adm id).filter (fun time => decide (now - 60000 < time)) := by
  obtain ⟨c, hc, hget⟩ := h.stored id
  rw [hget, filter_lt_filter_lt, max_eq_right (by omega)]

/-- A call is rejected exactly when at least five admitted timestamps of
the same identity lie in the trailing window. -/
lemma rl_step_false_iff (store : RLStore) (adm : List (String × Int)) (T : Int)
    (id : String) (now : Int) (hT : T ≤ now) (h : RLInv store adm T) :
    ((rateLimitCheck store id now).1 = false
      ↔ 5 ≤ ((admittedTimes adm id).filter (fun time => decide (now - 60000 < time))).length) := by
  unfold rateLimitCheck
  rw [← recent_eq store adm T id now hT h]
  by_cases hr : 5 ≤ ((storeGet store id).filter (fun time => decide (now - 60000 < time))).length <;>
    simp [hr]

/-- Rejected calls leave the store untouched. -/
lemma rl_step_reject_store (store : RLStore) (id : String) (now : Int)
    (hfalse : (rateLimitCheck store id now).1 = false) :
    (rateLimitCheck store id now).2 = store := by
  unfold rateLimitCheck at hfalse ⊢
  by_cases hr : 5 ≤ ((storeGet store id).filter (fun time => decide (now - 60000 < time))).length
  · simp [hr]
  · simp [hr] at hfalse

/-- One call preserves the invariant, moving the watermark to the call
time. -/
lemma rl_step_inv (store : RLStore) (adm : List (String × Int)) (T : Int)
    (id : String) (now : Int) (hT : T ≤ now) (h : RLInv store adm T) :
    RLInv (rateLimitCheck store id now).2
      (if (rateLimitCheck store id now).1 then adm ++ [(id, now)] else adm) now := by
  have hrec := recent_eq store adm T id now hT h
  unfold rateLimitCheck
  by_cases hr : 5 ≤ ((storeGet store id).filter (fun time => decide (now - 60000 < time))).length
  · simpa [hr] using h.mono hT
  · simp only [hr, if_false, Bool.if_true_left]
    simp only [if_true]
    set v := (storeGet store id).filter (fun time => decide (now - 60000 < time)) ++ [now] with hv
    set s1 := storeSet store id v with hs1
    have hnd1 : (s1.map Prod.fst).Nodup := nodup_keys_storeSet _ _ _ h.nodup
    have hvEq : v = (admittedTimes adm id ++ [now]).filter (fun time => decide (now - 60000 < time)) := by
      rw [List.filter_append, ← hrec]
      simp [hv]
    refine ⟨nodup_keys_rlCleanup _ _ hnd1, ?_, ?_⟩
    · intro id2 t ht
      by_cases hid : id2 = id
      · subst hid
        rw [admittedTimes_append_self] at ht
        rcases List.mem_append.mp ht with h1 | h1
        · exact (h.adm_le id2 t h1).trans hT
        · simp at h1
          omega
      · rw [admittedTimes_append_ne _ _ _ _ hid] at ht
        exact (h.adm_le id2 t ht).trans hT
    · intro id2
      by_cases hid : id2 = id
      · subst hid
        rw [admittedTimes_append_self]
        unfold rlCleanup
        split
        · refine ⟨now - 60000, le_refl _, ?_⟩
          rw [storeGet_cleanupBody _ _ hnd1, storeGet_set_self, hvEq, filter_lt_filter_lt,
            max_eq_left (by omega)]
        · exact ⟨now - 60000, le_refl _, by rw [storeGet_set_self, hvEq]⟩
      · obtain ⟨c2, hc2, hget2⟩ := h.stored id2
        rw [admittedTimes_append_ne _ _ _ _ hid]
        unfold rlCleanup
        split
        · refine ⟨max c2 (now - 120000), by omega, ?_⟩
          rw [storeGet_cleanupBody _ _ hnd1, storeGet_set_ne _ _ _ _ hid, hget2,
            filter_lt_filter_lt]
        · exact ⟨c2, by omega, by rw [storeGet_set_ne _ _ _ _ hid, hget2]⟩

/-- After an admitted call, the caller's stored list has at most five
timestamps, all within the trailing window of the call time. -/
lemma rl_step_admit (store : RLStore) (adm : List (String × Int)) (T : Int)
    (id : String) (now : Int) (hT : T ≤ now) (h : RLInv store adm T)
    (htrue : (rateLimitCheck store id now).1 = true) :
    (storeGet (rateLimitCheck store id now).2 id).length ≤ 5
      ∧ ∀ t ∈ storeGet (rateLimitCheck store id now).2 id, now - 60000 < t ∧ t ≤ now := by
  obtain ⟨c, hc, hget⟩ := h.stored id
  unfold rateLimitCheck at htrue ⊢
  by_cases hr : 5 ≤ ((storeGet store id).filter (fun time => decide (now - 60000 < time))).length
  · simp [hr] at htrue
  · simp only [hr, if_false]
    set v := (storeGet store id).filter (fun time => decide (now - 60000 < time)) ++ [now] with hv
    set s1 := storeSet store id v with hs1
    have hnd1 : (s1.map Prod.fst).Nodup := nodup_keys_storeSet _ _ _ h.nodup
    have hvlen : v.length ≤ 5 := by
      rw [hv, List.length_append]
      simp
      omega
    have hvmem : ∀ t ∈ v, now - 60000 < t ∧ t ≤ now := by
      intro t ht
      rcases List.mem_append.mp ht with h1 | h1
      · have h2 := List.mem_filter.mp h1
        have h3 : t ∈ storeGet store id := h2.1
        rw [hget] at h3
        have h4 : t ∈ admittedTimes adm id := (List.mem_filter.mp h3).1
        have h5 := h.adm_le id t h4
        have h6 : decide (now - 60000 < t) = true := h2.2
        simp at h6
        exact ⟨h6, by omega⟩
      · simp at h1
        omega
    unfold rlCleanup
    split
    · rw [storeGet_cleanupBody _ _ hnd1, storeGet_set_self]
      refine ⟨(List.length_filter_le _ _).trans hvlen, ?_⟩
      intro t ht
      exact hvmem t (List.mem_filter.mp ht).1
    · rw [storeGet_set_self]
      exact ⟨hvlen, hvmem⟩

/-- Running a monotone batch of calls preserves the invariant up to any
upper bound on the batch times. -/
lemma rlRun_inv (trace : List (String × Int)) :
    ∀ (store : RLStore) (adm : List (String × Int)) (T N : Int),
      RLInv store adm T →
      trace.Pairwise (fun a b => a.2 ≤ b.2) →
      (∀ c ∈ trace, T ≤ c.2) →
      (∀ c ∈ trace, c.2 ≤ N) →
      T ≤ N →
      RLInv (rlRun store adm trace).1 (rlRun store adm trace).2 N := by
  induction trace with
  | nil =>
    intro store adm T N h _ _ _ hTN
    simpa [rlRun] using h.mono hTN
  | cons c cs ih =>
    intro store adm T N h hpw hge hle hTN
    have hTc : T ≤ c.2 := hge c (by simp)
    have hstep := rl_step_inv store adm T c.1 c.2 hTc h
    have hpw2 : cs.Pairwise (fun a b => a.2 ≤ b.2) := (List.pairwise_cons.mp hpw).2
    have hge2 : ∀ d ∈ cs, c.2 ≤ d.2 := (List.pairwise_cons.mp hpw).1
    have hle2 : ∀ d ∈ cs, d.2 ≤ N := fun d hd => hle d (List.mem_cons_of_mem _ hd)
    have hcN : c.2 ≤ N := hle c (by simp)
    simpa [rlRun] using
      ih (rateLimitCheck store c.1 c.2).2
        (if (rateLimitCheck store c.1 c.2).1 then adm ++ [c] else adm) c.2 N hstep hpw2 hge2
        hle2 hcN

/-- Lower bound used to seed the invariant for an arbitrary trace. -/
def minTime (trace : List (String × Int)) (a : Int) : Int :=
  trace.foldr (fun c m => min c.2 m) a

lemma minTime_le (trace : List (String × Int)) (a : Int) :
    minTime trace a ≤ a ∧ ∀ c ∈ trace, minTime trace a ≤ c.2 := by
  induction trace with
  | nil => simp [minTime]
  | cons c cs ih =>
    constructor
    · simp only [minTime, List.foldr_cons]
      exact (min_le_right _ _).trans ih.1
    · intro d hd
      rcases List.mem_cons.mp hd with h1 | h1
      · subst h1
        simp only [minTime, List.foldr_cons]
        exact min_le_left _ _
      · simp only [minTime, List.foldr_cons]
        exact (min_le_right _ _).trans (ih.2 d h1)

/-- C10: after any time-monotone call history, `rateLimitCheck` rejects a
call exactly when at least 5 previously admitted timestamps of the same
identity lie within the trailing 60 seconds of the call time; a rejected
call leaves the store unchanged (consuming no quota), and after an
admitted call the identity's stored list holds at most 5 timestamps, all
within the trailing 60 seconds. -/
theorem c10_rate_limiter_invariant (trace : List (String × Int)) (id : String) (now : Int)
    (hmono : trace.Pairwise (fun a b => a.2 ≤ b.2))
    (hbound : ∀ c ∈ trace, c.2 ≤ now) :
    ((rateLimitCheck (rlRun [] [] trace).1 id now).1 = false
      ↔ 5 ≤ ((admittedTimes (rlRun [] [] trace).2 id).filter
          (fun t => decide (now - 60000 < t ∧ t ≤ now))).length)
    ∧ ((rateLimitCheck (rlRun [] [] trace).1 id now).1 = false
        → (rateLimitCheck (rlRun [] [] trace).1 id now).2 = (rlRun [] [] trace).1)
    ∧ ((rateLimitCheck (rlRun [] [] trace).1 id now).1 = true
        → (storeGet (rateLimitCheck (rlRun [] [] trace).1 id now).2 id).length ≤ 5
          ∧ ∀ t ∈ storeGet (rateLimitCheck (rlRun [] [] trace).1 id now).2 id,
              now - 60000 < t ∧ t ≤ now) := by
  have hmin := minTime_le trace now
  have hinv : RLInv (rlRun [] [] trace).1 (rlRun [] [] trace).2 now :=
    rlRun_inv trace [] [] (minTime trace now) now (RLInv.empty _) hmono hmin.2 hbound hmin.1
  refine ⟨?_, fun hf => rl_step_reject_store _ _ _ hf,
    fun ht => rl_step_admit _ _ now id now (le_refl _) hinv ht⟩
  have h1 := rl_step_false_iff (rlRun [] [] trace).1 (rlRun [] [] trace).2 now id now
    (le_refl _) hinv
  have h2 : (admittedTimes (rlRun [] [] trace).2 id).filter
        (fun t => decide (now - 60000 < t ∧ t ≤ now))
      = (admittedTimes (rlRun [] [] trace).2 id).filter
        (fun t => decide (now - 60000 < t)) := by
    apply List.filter_congr
    intro t ht
    have hle := hinv.adm_le id t ht
    exact decide_eq_decide.mpr (by constructor <;> intro hh <;> [exact hh.1; exact ⟨hh, hle⟩])
  rw [h2]
  exact h1

/-- Concrete trace used by the C10 witness: five calls by one identity
at times 0 through 4. -/
def rlTrace5 : List (String × Int) := [("u", 0), ("u", 1), ("u", 2), ("u", 3), ("u", 4)]

/-- Witness for C10 at a concrete monotone trace of five calls by one
identity followed by a sixth check at time 5. -/
theorem c10_rate_limiter_invariant_witness :
    (rlTrace5.Pairwise (fun a b => a.2 ≤ b.2)
      ∧ (∀ c ∈ rlTrace5, c.2 ≤ (5 : Int)))
    ∧ (((rateLimitCheck (rlRun [] [] rlTrace5).1 "u" 5).1 = false
        ↔ 5 ≤ ((admittedTimes (rlRun [] [] rlTrace5).2 "u").filter
            (fun t => decide ((5 : Int) - 60000 < t ∧ t ≤ 5))).length)
      ∧ ((rateLimitCheck (rlRun [] [] rlTrace5).1 "u" 5).1 = false
          → (rateLimitCheck (rlRun [] [] rlTrace5).1 "u" 5).2 = (rlRun [] [] rlTrace5).1)
      ∧ ((rateLimitCheck (rlRun [] [] rlTrace5).1 "u" 5).1 = true
          → (storeGet (rateLimitCheck (rlRun [] [] rlTrace5).1 "u" 5).2 "u").length ≤ 5
            ∧ ∀ t ∈ storeGet (rateLimitCheck (rlRun [] [] rlTrace5).1 "u" 5).2 "u",
                (5 : Int) - 60000 < t ∧ t ≤ 5)) :=
  ⟨⟨ by decide, by decide⟩,
    c10_rate_limiter_invariant rlTrace5 "u" 5 (by decide) (by decide)⟩

/-! ### Calendar model and monthly-trend bucketing (index.ts lines
215-240, 002_create_analytics_rpc.sql lines 83-101) -/

/-- A calendar date as JavaScript `Date` components: `month` is 0-based
(0 = January), `day` is 1-based. -/
structure Date where
  year : Int
  month : Nat
  day : Nat
deriving DecidableEq

/-- Gregorian leap-year rule. -/
def isLeap (y : Int) : Bool :=
  (y % 4 == 0 && y % 100 != 0) || y % 400 == 0

/-- Number of days of a (0-based) month. -/
def daysInMonth (y : Int) (m : Nat) : Nat :=
  if m = 1 then (if isLeap y then 29 else 28)
  else if m = 3 ∨ m = 5 ∨ m = 8 ∨ m = 10 then 30
  else 31

/-- JavaScript `date.setMonth(date.getMonth() - i)`: the target month
index is normalized into year and month, and a day-of-month beyond the
target month's length rolls over into the following month (one carry
suffices: the overflow is at most 31 - 28 = 3 days). -/
def setMonthSub (d : Date) (i : Nat) : Date :=
  let total : Int := d.year * 12 + d.month - i
  let y : Int := total.fdiv 12
  let m : Nat := (total.emod 12).toNat
  if d.day ≤ daysInMonth y m then ⟨y, m, d.day⟩
  else if m = 11 then ⟨y + 1, 0, d.day - daysInMonth y m⟩
  else ⟨y, m + 1, d.day - daysInMonth y m⟩

/-- The `YYYY-MM` key of a date (the counterpart of
`toISOString().slice(0, 7)`), as a linear month index. -/
def dateYm (d : Date) : Int := d.year * 12 + d.month

/-- The keys of `last6Months` (index.ts lines 217-221): for i = 0..5 the
month of `now` shifted back by `i` months via `setMonth`, reversed. -/
def last6Months (now : Date) : List Int :=
  ((List.range 6).map (fun i => dateYm (setMonthSub now i))).reverse

/-- Key sequence of a JS `Map` seeded by iterated `set`: a repeated key
keeps its first position, so duplicates after the first occurrence are
dropped. -/
def mapKeys : List Int → List Int
  | [] => []
  | k :: ks => k :: (mapKeys ks).filter (fun x => x ≠ k)

/-- One bucket of `monthlyTrends`. -/
structure TrendBucket where
  month : Int
  completed : Nat
  created : Nat
deriving DecidableEq

/-- The fallback path's `monthlyTrends` (index.ts lines 215-240): a JS
`Map` seeded with the `last6Months` keys and zero counts; each processed
task whose creation month is a present key increments `created`, and also
`completed` when its status is `done`; buckets are listed in key insertion
order. -/
def monthlyTrendsJS (tasks : List Task) (now : Date) : List TrendBucket :=
  (mapKeys (last6Months now)).map (fun k =>
    { month := k
      completed := tasks.countP (fun t => t.insertedYm == k && t.status == .done)
      created := tasks.countP (fun t => t.insertedYm == k) })

/-- The RPC path's monthly trends (002_create_analytics_rpc.sql lines
83-101): rows created since the cutoff `CURRENT_DATE - INTERVAL '6
months'` (the cutoff instant is a parameter here) are grouped by creation
month; only months with at least one row appear, ascending. -/
def monthlyTrendsRPC (tasks : List Task) (cutoff : Int) : List TrendBucket :=
  let rows := tasks.filter (fun t => decide (cutoff ≤ t.insertedAt))
  let months := (mapKeys (rows.map (fun t => t.insertedYm))).mergeSort
    (fun a b => decide (a ≤ b))
  months.map (fun k =>
    { month := k
      completed := rows.countP (fun t => t.insertedYm == k && t.status == .done)
      created := rows.countP (fun t => t.insertedYm == k) })

/-- C3 evidence: at the reference date 2025-05-31 the fallback month-key
generation collapses to four distinct keys — `setMonth` overflows April 31
to May 1 and February 31 to March 3 — so `monthlyTrends` has 4 buckets
(December 2024, January, March and May 2025; February and April are
missing), not the 6 consecutive months the claim requires; the RPC path
returns no zero-count buckets at all for an empty task set. -/
theorem c3_monthly_trends_failing_input :
    (monthlyTrendsJS [] ⟨2025, 4, 31⟩).length = 4
    ∧ mapKeys (last6Months ⟨2025, 4, 31⟩) = [24299, 24300, 24302, 24304]
    ∧ monthlyTrendsRPC [] 0 = [] := by
  refine ⟨by decide, by decide, by simp [monthlyTrendsRPC, mapKeys]⟩

/-! ### Upcoming deadlines (index.ts lines 243-259,
002_create_analytics_rpc.sql lines 103-122) -/

/-- Effective priority: `extras.priority` defaulting to `medium`
(`task.extras?.priority || "medium"` and
`COALESCE(extras->>'priority', 'medium')`). -/
def effectivePriority (t : Task) : Priority := t.priority.getD .medium

/-- An entry of `upcomingDeadlines`: task id, title, due date verbatim and
effective priority. -/
structure DeadlineEntry where
  taskId : String
  title : String
  dueDate : Int
  priority : Priority
deriving DecidableEq

/-- The edge function's `nextWeek` instant: `now` plus seven days (the
`setDate(getDate() + 7)` arithmetic, in milliseconds). -/
def nextWeekOf (now : Int) : Int := now + 7 * 86400000

/-- The fallback deadline filter (index.ts lines 247-250): status not
`done`, due date present, `gte now` and strictly `lt nextWeek`. -/
def upcomingCondJS (now : Int) (t : Task) : Bool :=
  t.status != .done &&
    (match t.dueDate with
     | some d => decide (now ≤ d) && decide (d < nextWeekOf now)
     | none => false)

/-- The RPC deadline filter (002_create_analytics_rpc.sql lines 116-119):
status not `done`, due date present, `>= p_now` and inclusive
`<= p_next_week`. -/
def upcomingCondRPC (now : Int) (t : Task) : Bool :=
  t.status != .done &&
    (match t.dueDate with
     | some d => decide (now ≤ d) && decide (d ≤ nextWeekOf now)
     | none => false)

/-- Due date used to order tasks that passed a deadline filter (such a
task always has one). -/
def dueOf (t : Task) : Int := t.dueDate.getD 0

/-- Projection of a task to its deadline entry. -/
def toDeadlineEntry (t : Task) : DeadlineEntry :=
  { taskId := t.id
    title := t.title
    dueDate := dueOf t
    priority := effectivePriority t }

/-- Fallback `upcomingDeadlines`: filter, order ascending by due date,
limit 10, project. -/
def upcomingDeadlinesJS (tasks : List Task) (now : Int) : List DeadlineEntry :=
  (((tasks.filter (upcomingCondJS now)).mergeSort
      (fun a b => decide (dueOf a ≤ dueOf b))).take 10).map toDeadlineEntry

/-- RPC `upcomingDeadlines`: same shape with the inclusive upper bound. -/
def upcomingDeadlinesRPC (tasks : List Task) (now : Int) : List DeadlineEntry :=
  (((tasks.filter (upcomingCondRPC now)).mergeSort
      (fun a b => decide (dueOf a ≤ dueOf b))).take 10).map toDeadlineEntry

/-- A pending task due exactly at `now + 7 days`. -/
def boundaryTask : Task :=
  { id := "t-boundary"
    title := "due in exactly seven days"
    status := .pending
    priority := none
    dueDate := some 604800000
    tags := []
    insertedAt := 0
    insertedYm := 0 }

/-- Counterexample to C4: at `now = 0`, `boundaryTask` is not `done`, has
a due date, and satisfies `now ≤ due ≤ now + 7 days` — the claim requires
it in `upcomingDeadlines` — yet the fallback path's output at this input
is empty, because its query uses the strict bound `due < now + 7 days`;
the bulk path does include it, so the two paths also disagree here. -/
theorem c4_boundary_counterexample :
    boundaryTask.status ≠ .done
    ∧ boundaryTask.dueDate = some (0 + 7 * 86400000)
    ∧ upcomingDeadlinesJS [boundaryTask] 0 = []
    ∧ upcomingDeadlinesRPC [boundaryTask] 0 = [toDeadlineEntry boundaryTask] := by
  refine ⟨by decide, by decide, ?_, ?_⟩
  · simp [upcomingDeadlinesJS, upcomingCondJS, boundaryTask, nextWeekOf]
  · simp [upcomingDeadlinesRPC, upcomingCondRPC, boundaryTask, nextWeekOf, toDeadlineEntry,
      dueOf, effectivePriority]

lemma sorted_by_due (l : List Task) :
    (l.mergeSort (fun a b => decide (dueOf a ≤ dueOf b))).Pairwise
      (fun a b => dueOf a ≤ dueOf b) := by
  refine List.Pairwise.imp ?_ (List.sorted_mergeSort ?_ ?_ l)
  · intro a b hab
    simpa using hab
  · intro a b c hab hbc
    simp only [decide_eq_true_eq] at *
    omega
  · intro a b
    simp only [Bool.or_eq_true, decide_eq_true_eq]
    omega

/-- Shared specification of the filter, sort, limit-10 and project
pipeline behind `upcomingDeadlines`, parametric in the filter. -/
lemma deadline_pipeline_spec (tasks : List Task) (cond : Task → Bool) :
    ((((tasks.filter cond).mergeSort (fun a b => decide (dueOf a ≤ dueOf b))).take 10).map
        toDeadlineEntry).length ≤ 10
    ∧ ((((tasks.filter cond).mergeSort (fun a b => decide (dueOf a ≤ dueOf b))).take 10).map
        toDeadlineEntry).Pairwise (fun a b => a.dueDate ≤ b.dueDate)
    ∧ (∀ e ∈ (((tasks.filter cond).mergeSort
          (fun a b => decide (dueOf a ≤ dueOf b))).take 10).map toDeadlineEntry,
        ∃ t ∈ tasks, cond t = true ∧ e = toDeadlineEntry t)
    ∧ ∃ l : List Task, l.Perm (tasks.filter cond) ∧ l.Pairwise (fun a b => dueOf a ≤ dueOf b)
        ∧ (((tasks.filter cond).mergeSort (fun a b => decide (dueOf a ≤ dueOf b))).take 10).map
            toDeadlineEntry = (l.take 10).map toDeadlineEntry := by
  refine ⟨?_, ?_, ?_, ?_⟩
  · rw [List.length_map, List.length_take]
    exact min_le_left _ _
  · have hs := sorted_by_due (tasks.filter cond)
    have ht : (((tasks.filter cond).mergeSort
          (fun a b => decide (dueOf a ≤ dueOf b))).take 10).Pairwise
        (fun a b => dueOf a ≤ dueOf b) :=
      hs.sublist (List.take_sublist _ _)
    exact List.pairwise_map.mpr ht
  · intro e he
    obtain ⟨t, ht, rfl⟩ := List.mem_map.mp he
    have h1 : t ∈ (tasks.filter cond).mergeSort (fun a b => decide (dueOf a ≤ dueOf b)) :=
      (List.take_sublist _ _).subset ht
    have h2 : t ∈ tasks.filter cond := (List.mergeSort_perm _ _).subset h1
    have h3 := List.mem_filter.mp h2
    exact ⟨t, h3.1, h3.2, rfl⟩
  · exact ⟨(tasks.filter cond).mergeSort (fun a b => decide (dueOf a ≤ dueOf b)),
      List.mergeSort_perm _ _, sorted_by_due _, rfl⟩

/-- C4 (amended): on both strategies, `upcomingDeadlines` has at most 10
entries, is sorted ascending by due date, every entry comes from a task of
the set satisfying the path's selection condition (status not `done`, due
date present and in the path's window) and exposes id, title, due date
verbatim and effective priority; and the output is exactly the first 10 of
a due-date-sorted rearrangement of the selected tasks.  The bulk window is
inclusive, `now ≤ due ≤ now + 7 days`; the fallback window is half-open,
`now ≤ due < now + 7 days`. -/
theorem c4_upcoming_deadlines_amended (tasks : List Task) (now : Int) :
    ((upcomingDeadlinesJS tasks now).length ≤ 10
      ∧ (upcomingDeadlinesRPC tasks now).length ≤ 10)
    ∧ ((upcomingDeadlinesJS tasks now).Pairwise (fun a b => a.dueDate ≤ b.dueDate)
      ∧ (upcomingDeadlinesRPC tasks now).Pairwise (fun a b => a.dueDate ≤ b.dueDate))
    ∧ (∀ e ∈ upcomingDeadlinesJS tasks now,
        ∃ t ∈ tasks, upcomingCondJS now t = true ∧ e = toDeadlineEntry t)
    ∧ (∀ e ∈ upcomingDeadlinesRPC tasks now,
        ∃ t ∈ tasks, upcomingCondRPC now t = true ∧ e = toDeadlineEntry t)
    ∧ (∃ l : List Task, l.Perm (tasks.filter (upcomingCondJS now))
        ∧ l.Pairwise (fun a b => dueOf a ≤ dueOf b)
        ∧ upcomingDeadlinesJS tasks now = (l.take 10).map toDeadlineEntry)
    ∧ (∃ l : List Task, l.Perm (tasks.filter (upcomingCondRPC now))
        ∧ l.Pairwise (fun a b => dueOf a ≤ dueOf b)
        ∧ upcomingDeadlinesRPC tasks now = (l.take 10).map toDeadlineEntry) := by
  obtain ⟨a1, a2, a3, a4⟩ := deadline_pipeline_spec tasks (upcomingCondJS now)
  obtain ⟨b1, b2, b3, b4⟩ := deadline_pipeline_spec tasks (upcomingCondRPC now)
  exact ⟨⟨a1, b1⟩, ⟨a2, b2⟩, a3, b3, a4, b4⟩

/-! ### Priority and tag distribution (index.ts lines 192-213,
002_create_analytics_rpc.sql lines 55-81) -/

/-- The bounded recent-task sample of the fallback path (index.ts lines
192-198): order by `inserted_at` descending, limit 1000. -/
def recentTasksOf (tasks : List Task) : List Task :=
  (tasks.mergeSort (fun a b => decide (b.insertedAt ≤ a.insertedAt))).take 1000

/-- The three priority buckets of the report. -/
structure PriorityBuckets where
  high : Nat
  medium : Nat
  low : Nat
deriving DecidableEq

/-- Fallback `tasksByPriority` (index.ts lines 200-205): buckets start at
`{high: 0, medium: 0, low: 0}` and each sampled task increments the bucket
of `extras.priority || "medium"`. -/
def tasksByPriorityJS (tasks : List Task) : PriorityBuckets :=
  let recent := recentTasksOf tasks
  { high := recent.countP (fun t => effectivePriority t == .high)
    medium := recent.countP (fun t => effectivePriority t == .medium)
    low := recent.countP (fun t => effectivePriority t == .low) }

/-- JSON key of a priority. -/
def priorityKey : Priority → String
  | .low => "low"
  | .medium => "medium"
  | .high => "high"

/-- RPC `tasksByPriority` (002_create_analytics_rpc.sql lines 55-67):
`json_object_agg` over `GROUP BY COALESCE(extras->>'priority', 'medium')`
yields one key per effective priority that actually occurs, with its group
count over all of the owner's rows; groups are never empty, so exactly the
priorities with positive counts appear (rendered here in a fixed
low/medium/high order, the aggregate's order being unspecified). -/
def tasksByPriorityRPC (tasks : List Task) : List (String × Nat) :=
  ([("low", tasks.countP (fun t => effectivePriority t == .low)),
    ("medium", tasks.countP (fun t => effectivePriority t == .medium)),
    ("high", tasks.countP (fun t => effectivePriority t == .high))]).filter
    (fun p => decide (0 < p.2))

/-- A single task with priority `high`. -/
def highTask : Task :=
  { id := "t-high"
    title := "a high-priority task"
    status := .pending
    priority := some .high
    dueDate := none
    tags := []
    insertedAt := 0
    insertedYm := 0 }

/-- Counterexample to C5: on the bulk path, a task set with one
high-priority task yields `tasksByTag`-style aggregation containing only
the key `high` — the keys `low` and `medium` are absent even though the
claim requires all three keys with zero counts (and for the empty task set
the aggregate is empty altogether). -/
theorem c5_missing_keys_counterexample :
    tasksByPriorityRPC [highTask] = [("high", 1)]
    ∧ "low" ∉ (tasksByPriorityRPC [highTask]).map Prod.fst
    ∧ "medium" ∉ (tasksByPriorityRPC [highTask]).map Prod.fst
    ∧ tasksByPriorityRPC [] = [] := by
  refine ⟨by decide, by decide, by decide, by decide⟩

lemma countP_priority_partition (l : List Task) :
    l.countP (fun t => effectivePriority t == .high)
      + l.countP (fun t => effectivePriority t == .medium)
      + l.countP (fun t => effectivePriority t == .low) = l.length := by
  induction l with
  | nil => simp
  | cons t ts ih =>
    rcases h : effectivePriority t with _ | _ | _ <;>
      simp [List.countP_cons, h] <;> omega

lemma recentTasksOf_length (tasks : List Task) :
    (recentTasksOf tasks).length = min 1000 tasks.length := by
  rw [recentTasksOf, List.length_take, List.length_mergeSort]

/-- C5 (amended): the fallback path's `tasksByPriority` always has exactly
the three buckets `high`, `medium`, `low`, counts every sampled task under
its effective priority (absent priority counting as `medium`), and its
values sum to the sample size `min 1000 total` — equal to the total number
of tasks whenever the owner has at most 1000; the bulk path's aggregate
instead contains exactly one key per effective priority with a positive
count, its value being the exact count over all tasks, and its values
always sum to the total. -/
theorem c5_priority_distribution_amended (tasks : List Task) :
    (tasksByPriorityJS tasks).high + (tasksByPriorityJS tasks).medium
        + (tasksByPriorityJS tasks).low = min 1000 tasks.length
    ∧ (tasksByPriorityJS tasks).medium
        = (recentTasksOf tasks).countP
            (fun t => t.priority == none || t.priority == some .medium)
    ∧ ((tasksByPriorityRPC tasks).map Prod.snd).sum = tasks.length
    ∧ (∀ p : Priority,
        (priorityKey p, tasks.countP (fun t => effectivePriority t == p))
            ∈ tasksByPriorityRPC tasks
          ↔ 0 < tasks.countP (fun t => effectivePriority t == p)) := by
  refine ⟨?_, ?_, ?_, ?_⟩
  · rw [← recentTasksOf_length tasks]
    exact countP_priority_partition _
  · show (recentTasksOf tasks).countP _ = _
    apply List.countP_congr
    intro t _
    rcases ht : t.priority with _ | p
    · simp [effectivePriority, ht]
    · rcases p <;> simp [effectivePriority, ht]
  · have hpart := countP_priority_partition tasks
    unfold tasksByPriorityRPC
    set a := tasks.countP (fun t => effectivePriority t == .high) with ha
    set b := tasks.countP (fun t => effectivePriority t == .medium) with hb
    set c := tasks.countP (fun t => effectivePriority t == .low) with hc
    by_cases h1 : 0 < c <;> by_cases h2 : 0 < b <;> by_cases h3 : 0 < a <;>
      simp [List.filter_cons, h1, h2, h3] <;> omega
  · intro p
    unfold tasksByPriorityRPC
    constructor
    · intro hmem
      have := List.mem_filter.mp hmem
      simpa using this.2
    · intro hpos
      apply List.mem_filter.mpr
      refine ⟨?_, by simpa using hpos⟩
      rcases p <;> simp [priorityKey]

/-- One step of the fallback tag loop (index.ts line 211):
`tasksByTag[tag] = (tasksByTag[tag] || 0) + 1` on a JS object modelled as
an association list in first-appearance key order. -/
def bumpTag : List (String × Nat) → String → List (String × Nat)
  | [], tag => [(tag, 1)]
  | p :: m, tag => if p.1 = tag then (p.1, p.2 + 1) :: m else p :: bumpTag m tag

/-- Accumulate tag counts over tasks (index.ts lines 207-213): every
occurrence of a tag string in a task's `tags` list increments that exact
string's counter. -/
def tagFold (m : List (String × Nat)) (tasks : List Task) : List (String × Nat) :=
  tasks.foldl (fun acc t => t.tags.foldl bumpTag acc) m

/-- Fallback `tasksByTag`: occurrence counts over the bounded recent
sample, with no cap on the number of tags. -/
def tasksByTagJS (tasks : List Task) : List (String × Nat) :=
  tagFold [] (recentTasksOf tasks)

/-- RPC `tasksByTag` (002_create_analytics_rpc.sql lines 69-81):
occurrence counts per tag over all rows (`jsonb_array_elements_text`
expands every occurrence, duplicates within one task included), ordered by
count descending, limited to the top 20.  The SQL order among equal counts
is unspecified; the model sorts stably from first-appearance order, one
deterministic choice. -/
def tasksByTagRPC (tasks : List Task) : List (String × Nat) :=
  ((tagFold [] tasks).mergeSort (fun a b => decide (b.2 ≤ a.2))).take 20

/-- Lookup of a tag's count with default 0 (`tasksByTag[tag] || 0`). -/
def tagCount : List (String × Nat) → String → Nat
  | [], _ => 0
  | p :: m, tag => if p.1 = tag then p.2 else tagCount m tag

lemma tagCount_bumpTag (m : List (String × Nat)) (s tag : String) :
    tagCount (bumpTag m s) tag = tagCount m tag + (if s = tag then 1 else 0) := by
  induction m with
  | nil => by_cases h : s = tag <;> simp [bumpTag, tagCount, h]
  | cons p m ih =>
    by_cases hp : p.1 = s
    · by_cases ht : p.1 = tag
      · have : s = tag := hp ▸ ht
        simp [bumpTag, tagCount, hp, ht, this]
      · have : ¬ s = tag := fun hh => ht (hp.trans hh)
        simp [bumpTag, tagCount, hp, ht, this]
    · by_cases ht : p.1 = tag
      · have : ¬ s = tag := fun hh => hp (ht.trans hh.symm)
        have h2 : ¬ tag = s := fun hh => this hh.symm
        simp [bumpTag, tagCount, hp, ht, this, h2]
      · simp [bumpTag, tagCount, hp, ht, ih]

lemma tagCount_foldl_bump (l : List String) (m : List (String × Nat)) (tag : String) :
    tagCount (l.foldl bumpTag m) tag = tagCount m tag + l.count tag := by
  induction l generalizing m with
  | nil => simp
  | cons s l ih =>
    rw [List.foldl_cons, ih, tagCount_bumpTag]
    by_cases h : s = tag
    · simp [List.count_cons, h]
      omega
    · simp [List.count_cons, h]

lemma tagCount_tagFold (tasks : List Task) (m : List (String × Nat)) (tag : String) :
    tagCount (tagFold m tasks) tag
      = tagCount m tag + (tasks.map (fun t => t.tags.count tag)).sum := by
  induction tasks generalizing m with
  | nil => simp [tagFold]
  | cons t ts ih =>
    show tagCount (tagFold (t.tags.foldl bumpTag m) ts) tag = _
    rw [ih, tagCount_foldl_bump]
    simp
    omega

lemma mem_keys_bumpTag (m : List (String × Nat)) (s k : String) :
    k ∈ (bumpTag m s).map Prod.fst ↔ k ∈ m.map Prod.fst ∨ k = s := by
  induction m with
  | nil => simp [bumpTag]
  | cons p m ih =>
    by_cases hp : p.1 = s
    · subst hp
      simp [bumpTag]
      tauto
    · simp [bumpTag, hp, ih]
      tauto

lemma nodup_keys_bumpTag (m : List (String × Nat)) (s : String)
    (h : (m.map Prod.fst).Nodup) : ((bumpTag m s).map Prod.fst).Nodup := by
  induction m with
  | nil => simp [bumpTag]
  | cons p m ih =>
    simp only [List.map_cons, List.nodup_cons] at h
    by_cases hp : p.1 = s
    · show ((if p.1 = s then (p.1, p.2 + 1) :: m else p :: bumpTag m s).map Prod.fst).Nodup
      rw [if_pos hp]
      simp only [List.map_cons, List.nodup_cons]
      exact ⟨h.1, h.2⟩
    · simp only [bumpTag, hp, if_false, List.map_cons, List.nodup_cons]
      refine ⟨?_, ih h.2⟩
      rw [mem_keys_bumpTag]
      push_neg
      exact ⟨h.1, hp⟩

lemma nodup_keys_foldl_bump (l : List String) (m : List (String × Nat))
    (h : (m.map Prod.fst).Nodup) : ((l.foldl bumpTag m).map Prod.fst).Nodup := by
  induction l generalizing m with
  | nil => simpa
  | cons s l ih => exact ih _ (nodup_keys_bumpTag m s h)

lemma nodup_keys_tagFold (tasks : List Task) (m : List (String × Nat))
    (h : (m.map Prod.fst).Nodup) : ((tagFold m tasks).map Prod.fst).Nodup := by
  induction tasks generalizing m with
  | nil => simpa [tagFold]
  | cons t ts ih => exact ih _ (nodup_keys_foldl_bump t.tags m h)

lemma mem_assoc_tagCount (m : List (String × Nat)) (h : (m.map Prod.fst).Nodup)
    (p : String × Nat) (hp : p ∈ m) : p.2 = tagCount m p.1 := by
  induction m with
  | nil => cases hp
  | cons q m ih =>
    simp only [List.map_cons, List.nodup_cons] at h
    rcases List.mem_cons.mp hp with h1 | h1
    · subst h1
      simp [tagCount]
    · have hq : q.1 ≠ p.1 := by
        intro hh
        exact h.1 (hh ▸ List.mem_map.mpr ⟨p, h1, rfl⟩)
      simp [tagCount, hq, ih h.2 h1]

lemma sorted_by_count (l : List (String × Nat)) :
    (l.mergeSort (fun a b => decide (b.2 ≤ a.2))).Pairwise (fun a b => b.2 ≤ a.2) := by
  refine List.Pairwise.imp ?_ (List.sorted_mergeSort ?_ ?_ l)
  · intro a b hab
    simpa using hab
  · intro a b c hab hbc
    simp only [decide_eq_true_eq] at *
    omega
  · intro a b
    simp only [Bool.or_eq_true, decide_eq_true_eq]
    omega

/-- C6: every occurrence of a tag string in a processed task's `tags` list
(duplicates within one task included) increments exactly that string's
counter — the looked-up count of any tag equals the summed occurrence
count, case-sensitively, on the fallback sample and on the bulk path's
full aggregation — and the bulk path retains only the top 20 tags: at most
20 entries, counts descending, every retained entry carrying its exact
global occurrence count, the output being a take-20 prefix of a
count-descending rearrangement of the full tally (deterministic for a
fixed input, the model being a function). -/
theorem c6_tag_counting (tasks : List Task) (tag : String) :
    tagCount (tasksByTagJS tasks) tag
        = ((recentTasksOf tasks).map (fun t => t.tags.count tag)).sum
    ∧ tagCount (tagFold [] tasks) tag = (tasks.map (fun t => t.tags.count tag)).sum
    ∧ (tasksByTagRPC tasks).length ≤ 20
    ∧ (tasksByTagRPC tasks).Pairwise (fun a b => b.2 ≤ a.2)
    ∧ (∀ p ∈ tasksByTagRPC tasks, p.2 = (tasks.map (fun t => t.tags.count p.1)).sum)
    ∧ (∃ l : List (String × Nat), l.Perm (tagFold [] tasks)
        ∧ l.Pairwise (fun a b => b.2 ≤ a.2) ∧ tasksByTagRPC tasks = l.take 20) := by
  refine ⟨?_, ?_, ?_, ?_, ?_, ?_⟩
  · rw [tasksByTagJS, tagCount_tagFold]
    simp [tagCount]
  · rw [tagCount_tagFold]
    simp [tagCount]
  · rw [tasksByTagRPC, List.length_take]
    exact min_le_left _ _
  · exact (sorted_by_count _).sublist (List.take_sublist _ _)
  · intro p hp
    have h1 : p ∈ (tagFold [] tasks).mergeSort (fun a b => decide (b.2 ≤ a.2)) :=
      (List.take_sublist _ _).subset hp
    have h2 : p ∈ tagFold [] tasks := (List.mergeSort_perm _ _).subset h1
    have h3 := mem_assoc_tagCount (tagFold [] tasks)
      (nodup_keys_tagFold tasks [] (by simp)) p h2
    rw [h3, tagCount_tagFold]
    simp [tagCount]
  · exact ⟨(tagFold [] tasks).mergeSort (fun a b => decide (b.2 ≤ a.2)),
      List.mergeSort_perm _ _, sorted_by_count _, rfl⟩

/-! ### The request-handling shell (index.ts lines 78-289) -/

/-- The full analytics report (interface `TaskAnalytics`); the seven
scalar fields are factored through `ScalarStats`. -/
structure TaskAnalytics where
  scalars : ScalarStats
  averageCompletionTime : ℚ
  tasksByPriority : PriorityBuckets
  tasksByTag : List (String × Nat)
  monthlyTrends : List TrendBucket
  upcomingDeadlines : List DeadlineEntry
deriving DecidableEq

/-- The report assembled by the fallback path (index.ts lines 167-259):
scalar counts and score from the full data, `averageCompletionTime`
hard-coded to 24, distributions and trends from the bounded recent sample,
deadlines from a dedicated limited query. -/
def fallbackAnalytics (tasks : List Task) (now : Int) (nowDate : Date) : TaskAnalytics :=
  { scalars := fallbackScalars tasks now
    averageCompletionTime := 24
    tasksByPriority := tasksByPriorityJS tasks
    tasksByTag := tasksByTagJS tasks
    monthlyTrends := monthlyTrendsJS (recentTasksOf tasks) nowDate
    upcomingDeadlines := upcomingDeadlinesJS tasks now }

/-- The default report used when the RPC returns no row (index.ts lines
265-278). -/
def emptyReport : TaskAnalytics :=
  { scalars :=
      { totalTasks := 0
        completedTasks := 0
        pendingTasks := 0
        inProgressTasks := 0
        overdueTasks := 0
        completionRate := 0
        productivityScore := 0 }
    averageCompletionTime := 0
    tasksByPriority := { high := 0, medium := 0, low := 0 }
    tasksByTag := []
    monthlyTrends := []
    upcomingDeadlines := [] }

/-- Body of an HTTP response: the literal `"ok"` text, a JSON object
`\x7berror: message\x7d`, or a serialized analytics report.
`JSON.stringify` is injective on these shapes, so they are kept
symbolic. -/
inductive RespBody
  | text (s : String)
  | errJson (message : String)
  | analyticsJson (a : TaskAnalytics)
deriving DecidableEq

/-- An HTTP response as the handler constructs it: status, header list and
body. -/
structure Response where
  status : Nat
  headers : List (String × String)
  body : RespBody
deriving DecidableEq

/-- The CORS headers (index.ts lines 4-8). -/
def corsHeaders : List (String × String) :=
  [("Access-Control-Allow-Origin", "*"),
   ("Access-Control-Allow-Headers", "authorization, x-client-info, apikey, content-type")]

/-- Headers of every JSON response: CORS plus content type. -/
def jsonHeaders : List (String × String) :=
  corsHeaders ++ [("Content-Type", "application/json")]

/-- What the `serve` callback hands back for one request: a `Response`, or
a plain JavaScript value that is not a `Response` at all. -/
inductive ServeResult
  | response (r : Response)
  | rawAnalytics (a : TaskAnalytics)
deriving DecidableEq

/-- The catch-all error response (index.ts lines 283-288): status 500 with
body `\x7berror: error.message\x7d` — the body embeds the thrown error's
own message. -/
def catchResponse (msg : String) : Response :=
  { status := 500, headers := jsonHeaders, body := .errJson msg }

/-- The request-handling shell (index.ts lines 78-289).  External effects
are passed as parameters: `method` the HTTP method; `envOk` whether both
environment variables are set (when not, the `throw` lands in the
catch-all); `user` the authenticated caller, if any; `uuidOk` the result
of `isValidUUID(user.id)`; `thrown` the message of an exception raised by
the client machinery inside the `try`, if any; `store` the rate-limit
store and `now`/`nowDate` the boundary's reference instant;
`rpcFails` whether the `get_task_analytics` invocation returns an error;
`rpcReport` the report the RPC returns otherwise; `tasks` the owner's
rows.  On the RPC-failure path the source computes the fallback report and
then executes `return analytics;` — returning the plain object itself, not
a `Response`. -/
def handleRequest (method : String) (envOk : Bool) (user : Option String) (uuidOk : Bool)
    (thrown : Option String) (store : RLStore) (now : Int) (nowDate : Date)
    (rpcFails : Bool) (rpcReport : TaskAnalytics) (tasks : List Task) : ServeResult :=
  if method = "OPTIONS" then
    .response { status := 200, headers := corsHeaders, body := .text "ok" }
  else if method ≠ "GET" then
    .response { status := 405, headers := jsonHeaders, body := .errJson "Method not allowed" }
  else if !envOk then
    .response (catchResponse "Missing required environment variables")
  else
    match thrown with
    | some msg => .response (catchResponse msg)
    | none =>
      match user with
      | none =>
        .response { status := 401, headers := jsonHeaders, body := .errJson "Unauthorized" }
      | some uid =>
        if !uuidOk then
          .response { status := 400, headers := jsonHeaders, body := .errJson "Invalid user ID" }
        else if (rateLimitCheck store uid now).1 = false then
          .response { status := 429, headers := jsonHeaders,
                      body := .errJson "Rate limit exceeded" }
        else if rpcFails then
          .rawAnalytics (fallbackAnalytics tasks now nowDate)
        else
          .response { status := 200, headers := jsonHeaders, body := .analyticsJson rpcReport }

/-- C7 evidence: for every authenticated, validated, non-rate-limited GET
request whose RPC invocation fails, the handler's returned value is the
plain fallback report object — `return analytics;` at index.ts line 261 —
and not a `Response` of any kind, so the caller does not receive a
well-formed success response. -/
theorem c7_fallback_path_returns_raw_object (uid : String) (store : RLStore) (now : Int)
    (nowDate : Date) (rpcReport : TaskAnalytics) (tasks : List Task)
    (hrate : (rateLimitCheck store uid now).1 = true) :
    handleRequest "GET" true (some uid) true none store now nowDate true rpcReport tasks
      = .rawAnalytics (fallbackAnalytics tasks now nowDate)
    ∧ ∀ r : Response,
        handleRequest "GET" true (some uid) true none store now nowDate true rpcReport tasks
          ≠ .response r := by
  have h1 : handleRequest "GET" true (some uid) true none store now nowDate true rpcReport tasks
      = .rawAnalytics (fallbackAnalytics tasks now nowDate) := by
    simp [handleRequest, hrate]
  refine ⟨h1, fun r hr => ?_⟩
  rw [h1] at hr
  cases hr

/-- Witness for C7 at a concrete fresh-store request. -/
theorem c7_fallback_path_returns_raw_object_witness :
    (rateLimitCheck [] "u" 0).1 = true
    ∧ (handleRequest "GET" true (some "u") true none [] 0 ⟨2025, 0, 1⟩ true emptyReport []
        = .rawAnalytics (fallbackAnalytics [] 0 ⟨2025, 0, 1⟩)
      ∧ ∀ r : Response,
          handleRequest "GET" true (some "u") true none [] 0 ⟨2025, 0, 1⟩ true emptyReport []
            ≠ .response r) :=
  ⟨by decide,
    c7_fallback_path_returns_raw_object "u" [] 0 ⟨2025, 0, 1⟩ emptyReport [] (by decide)⟩

/-- Counterexample to C8: two different internal exceptions produce two
different error responses — each body embeds the exception's own message
(`\x7berror: error.message\x7d`), so the responses are neither identical
nor free of internal detail. -/
theorem c8_leak_counterexample :
    handleRequest "GET" true (some "u") true (some "boom-A") [] 0 ⟨2025, 0, 1⟩ false
        emptyReport [] = .response (catchResponse "boom-A")
    ∧ handleRequest "GET" true (some "u") true (some "boom-B") [] 0 ⟨2025, 0, 1⟩ false
        emptyReport [] = .response (catchResponse "boom-B")
    ∧ catchResponse "boom-A" ≠ catchResponse "boom-B"
    ∧ (catchResponse "boom-A").body = .errJson "boom-A" := by
  refine ⟨by simp [handleRequest], by simp [handleRequest], by decide, by decide⟩

/-- C8 (amended): every unexpected internal failure is answered with
status 500 and body `\x7berror: message\x7d`, where `message` is exactly
the internal exception's message; two such responses are identical exactly
when the two messages are equal, so the body does depend on the internal
error. -/
theorem c8_internal_error_amended (m1 m2 : String) :
    (catchResponse m1).status = 500
    ∧ (catchResponse m1).body = .errJson m1
    ∧ ((catchResponse m1 = catchResponse m2) ↔ m1 = m2) := by
  refine ⟨rfl, rfl, ?_, ?_⟩
  · intro h
    have h2 := congrArg Response.body h
    simpa [catchResponse] using h2
  · intro h
    rw [h]

/-- Counterexample to C9: a rate-limited request is answered with the
fixed 429 response whose body is the bare string `Rate limit exceeded`
and whose headers are only the CORS and content-type headers — no
`Retry-After` header and no duration anywhere, though the claim requires
an advisory retry-after duration. -/
theorem c9_no_retry_after_counterexample :
    handleRequest "GET" true (some "u") true none [("u", [0, 1, 2, 3, 4])] 5 ⟨2025, 0, 1⟩
        false emptyReport []
      = .response { status := 429, headers := jsonHeaders,
                    body := .errJson "Rate limit exceeded" }
    ∧ jsonHeaders.find? (fun p => p.1 == "Retry-After") = none := by
  refine ⟨by decide, by decide⟩

/-- C9 (amended): every request whose identity exceeds the sliding-window
limit is rejected with the fixed 429 `Rate limit exceeded` response —
independent of the RPC outcome and task data, so the request is not
retried internally — and that response carries no retry-after duration:
no header is named `Retry-After` and the body is the constant error
string. -/
theorem c9_rate_limited_response_amended (uid : String) (store : RLStore) (now : Int)
    (nowDate : Date) (rpcFails : Bool) (rpcReport : TaskAnalytics) (tasks : List Task)
    (h : (rateLimitCheck store uid now).1 = false) :
    handleRequest "GET" true (some uid) true none store now nowDate rpcFails rpcReport tasks
      = .response { status := 429, headers := jsonHeaders,
                    body := .errJson "Rate limit exceeded" }
    ∧ ∀ p ∈ jsonHeaders, p.1 ≠ "Retry-After" := by
  refine ⟨by simp [handleRequest, h], by decide⟩

/-- Witness for C9 (amended) at a concrete saturated store. -/
theorem c9_rate_limited_response_amended_witness :
    (rateLimitCheck [("u", [0, 1, 2, 3, 4])] "u" 5).1 = false
    ∧ (handleRequest "GET" true (some "u") true none [("u", [0, 1, 2, 3, 4])] 5 ⟨2025, 0, 1⟩
          true emptyReport []
        = .response { status := 429, headers := jsonHeaders,
                      body := .errJson "Rate limit exceeded" }
      ∧ ∀ p ∈ jsonHeaders, p.1 ≠ "Retry-After") :=
  ⟨by decide,
    c9_rate_limited_response_amended "u" [("u", [0, 1, 2, 3, 4])] 5 ⟨2025, 0, 1⟩ true
      emptyReport [] (by decide)⟩

end TaskManager
